import Mathlib

/-!
Verification development for the PIC16F648A BERT firmware (BERT.c).

The firmware is a bit error rate tester: an LFSR regenerates the expected
PN sequence, a sync phase locks onto the incoming stream, and a count
phase counts mismatches over a fixed number of bits.

Modelling notes, all taken from the source:

* `short tap[16]` under the CCS C compiler is a packed array of sixteen
  1-bit cells occupying two bytes, cell `tap[0]` at bit 0 of byte 0 and
  `tap[15]` at bit 7 of byte 1.  We model it as `Fin 16 → Bool`.
* `shift_right(tap, 2, b)` (CCS builtin) shifts the two bytes one bit
  toward the least significant end: every cell moves one position toward
  the lower index, `tap[0]` is shifted out and discarded, and the input
  bit `b` is inserted at `tap[15]`.
* `countber` runs the sync loop
  `for (RenzokuError = 0; RenzokuError < ThresError; RenzokuError++)`
  and then the count loop
  `for (CountBits = 0; CountBits < TotalBits; CountBits++)`.
  Each loop pass consumes exactly one sampled bit; the busy-waits on the
  clock line only schedule the sample and carry no bit-level state, so
  the model consumes an abstract stream of sampled data-line levels.
* The counters fit their C types for every reachable value
  (`RenzokuError`, `ThresError` are 8-bit with `RenzokuError ≤ ThresError`;
  `CountBits`, `ErrorBits`, `TotalBits` are 16-bit with values `≤ 65535`),
  so `ℕ` models them without overflow.
-/

/-- The 16-cell LFSR register, `short tap[16]` in the source. -/
def Reg : Type := Fin 16 → Bool

instance : DecidableEq Reg := by
  unfold Reg
  infer_instance

/-- The global initializer of the register, `short tap[16] = {1,...,1}`
(source line 87): every cell holds 1.  Written once at program load. -/
def tapInit : Reg := fun _ => true

/-- The feedback bit `tap[7] ^ tap[11]` (source line 170). -/
def feedback (s : Reg) : Bool := xor (s 7) (s 11)

/-- CCS `shift_right(tap, 2, b)`: every cell moves one position toward
the lower index, cell 0 is discarded, and `b` enters at cell 15. -/
def shiftRight (s : Reg) (b : Bool) : Reg :=
  fun i => if h : (i : ℕ) = 15 then b else s ⟨(i : ℕ) + 1, by omega⟩

/-- One LFSR advance, `shift_right(tap, 2, tap[7] ^ tap[11])`. -/
def advance (s : Reg) : Reg := shiftRight s (feedback s)

/-- The sync-phase mismatch override `tap[15] = ~tap[15]`
(source line 163): flip cell 15, leave the rest alone. -/
def overrideFlip (s : Reg) : Reg :=
  fun i => if (i : ℕ) = 15 then !(s i) else s i

/-- The expected output bit compared against the sampled data,
`tap[15]` (source lines 158 and 180). -/
def expectedBit (s : Reg) : Bool := s 15

/-- Modelled from the words of the spec, for comparison with `advance`:
compute feedback from cells 7 and 11, shift every cell one position
toward the higher index discarding cell 15, and insert the feedback bit
at cell 0. -/
def advanceSpecDir (s : Reg) : Reg :=
  fun i => if h : (i : ℕ) = 0 then feedback s else s ⟨(i : ℕ) - 1, by omega⟩

/-- A register holding 1 in cell 0 and 0 elsewhere. -/
def regE0 : Reg := fun i => decide (i = (0 : Fin 16))

/-- The all-zero register. -/
def regZero : Reg := fun _ => false

/-!
Sync phase.  One loop pass of
`for (RenzokuError = 0; RenzokuError < ThresError; RenzokuError++)`
samples one bit `b` (the data line after the XOR with `DataNeg`),
compares it with `tap[15]`, on mismatch sets `RenzokuError = 0` and
flips `tap[15]`, advances the LFSR, and then the loop increment bumps
`RenzokuError`.  The loop exits as soon as the guard
`RenzokuError < ThresError` fails.
-/

/-- Sync-phase machine state: the register plus the consecutive-match
counter `RenzokuError`. -/
structure SyncSt where
  tap : Reg
  r : ℕ
  deriving DecidableEq

/-- One sync-loop pass on sampled bit `b`: compare with `tap[15]`;
on mismatch reset the counter to 0 and flip `tap[15]`; advance the
LFSR; then the `for` increment adds one to the counter. -/
def syncStep (b : Bool) (s : SyncSt) : SyncSt :=
  if s.tap 15 = b then
    { tap := advance s.tap, r := s.r + 1 }
  else
    { tap := advance (overrideFlip s.tap), r := 0 + 1 }

/-- The sync-phase trace: state after `n` loop passes, pass `n`
consuming sampled bit `stream n`. -/
def syncRun (stream : ℕ → Bool) (s0 : SyncSt) : ℕ → SyncSt
  | 0 => s0
  | n + 1 => syncStep (stream n) (syncRun stream s0 n)

/-- The exit test of the sync loop: the guard `RenzokuError < ThresError`
checked before each pass, searched up to `fuel` passes (the real loop is
unbounded; `fuel` makes the search executable).  Returns the number of
bits consumed before the guard first fails. -/
def lockSearch (thres : ℕ) (stream : ℕ → Bool) (s : SyncSt) : ℕ → Option ℕ
  | 0 => none
  | fuel + 1 =>
    if thres ≤ s.r then some 0
    else
      (lockSearch thres (fun i => stream (i + 1)) (syncStep (stream 0) s) fuel).map
        (fun n => n + 1)

/-!
Count phase: `for (CountBits = 0; CountBits < TotalBits; CountBits++)`
compares `tap[15]` with each sampled bit, increments `ErrorBits` on
mismatch (no override in this phase), and advances the LFSR.
-/

/-- Count-phase machine state: register, `ErrorBits`, `CountBits`. -/
structure CountSt where
  tap : Reg
  errorBits : ℕ
  countBits : ℕ
  deriving DecidableEq

/-- One count-loop pass on sampled bit `b`. -/
def countStep (b : Bool) (s : CountSt) : CountSt :=
  { tap := advance s.tap
    errorBits := if s.tap 15 = b then s.errorBits else s.errorBits + 1
    countBits := s.countBits + 1 }

/-- The count-phase trace: state after `n` loop passes. -/
def countRun (stream : ℕ → Bool) (s0 : CountSt) : ℕ → CountSt
  | 0 => s0
  | n + 1 => countStep (stream n) (countRun stream s0 n)

/-- The polarity-corrected data stream: each raw data-line level XORed
with the `DataNeg` flag (source lines 158 and 180). -/
def correctedStream (dataNeg : Bool) (raw : ℕ → Bool) : ℕ → Bool :=
  fun i => xor (raw i) dataNeg

/-- The whole of `countber` at the bit level.  The entry register state
is a parameter: `countber` zeroes `RenzokuError`, `ErrorBits` and
`CountBits` but never writes the `tap` array before the sync loop.
Runs the sync loop (searching at most `fuel` passes), then the count
loop for `totalBits` passes on the rest of the stream.  Returns
`(ErrorBits, CountBits, final register)` when the sync loop exits
within `fuel` passes. -/
def countber (fuel thres totalBits : ℕ) (dataNeg : Bool) (raw : ℕ → Bool)
    (tap0 : Reg) : Option (ℕ × ℕ × Reg) :=
  let stream := correctedStream dataNeg raw
  match lockSearch thres stream ⟨tap0, 0⟩ fuel with
  | none => none
  | some n =>
    let lockSt := syncRun stream ⟨tap0, 0⟩ n
    let c := countRun (fun i => stream (n + i)) ⟨lockSt.tap, 0, 0⟩ totalBits
    some (c.errorBits, c.countBits, c.tap)

/-- Modelled from the words of the spec, for comparison with
`countber`: the same measurement but with every register cell re-seeded
to 1 at the start of the invocation, whatever the entry state was. -/
def countberReseed (fuel thres totalBits : ℕ) (dataNeg : Bool)
    (raw : ℕ → Bool) (_tap0 : Reg) : Option (ℕ × ℕ × Reg) :=
  countber fuel thres totalBits dataNeg raw tapInit

/-!
Result display and configuration, from `show_ber`, `setsetting` and
`main`.
-/

/-- The failure condition named by the spec for a degenerate BER
computation. -/
inductive BerError where
  | divisionByZero
  deriving DecidableEq

/-- The BER computation of `show_ber` (source lines 200 to 209):
`fCB = CountBits; fEB = ErrorBits;` then print `(fEB / fCB) * 100.0`,
with no test of `CountBits` anywhere.  The C floats are modelled over
`ℚ`; the `Except` result type records whether a failure condition is
ever signalled (it never is: the division is unconditional). -/
def show_ber (errorBits countBits : ℕ) : Except BerError ℚ :=
  Except.ok ((errorBits : ℚ) / (countBits : ℚ) * 100)

/-- The fixed measurement-length table,
`long const tbit[6] = {1000, 5000, 10000, 30000, 50000, 65535}`
(source line 94). -/
def tbit : List ℕ := [1000, 5000, 10000, 30000, 50000, 65535]

/-- Reading `tbit[TBI]`.  A C array access with an out-of-range index
reads beyond the table; the model returns `none` there. -/
def loadTotalBits (tbi : ℕ) : Option ℕ := tbit.get? tbi

/-- The failure condition named by the spec for a bad length index. -/
inductive ConfigError where
  | invalidConfiguration
  deriving DecidableEq

/-- Configuration load in `main` (source lines 244 to 245):
`TBI = read_eeprom(2); TotalBits = tbit[TBI];` — the index is used
immediately, with no bounds check and no failure path. -/
def loadConfig (tbi : ℕ) : Except ConfigError (Option ℕ) :=
  Except.ok (loadTotalBits tbi)

/-- The length-index update of `setsetting` (source lines 106 to 107):
`TBI++; if (TBI == 6) { TBI = 0; }`. -/
def setsettingTBI (tbi : ℕ) : ℕ :=
  if tbi + 1 = 6 then 0 else tbi + 1

/-!
Concrete input streams used by witnesses and counterexamples.
-/

/-- The constantly-low data stream. -/
def streamZero : ℕ → Bool := fun _ => false

/-- The sync-phase state sequence obtained by feeding, at every pass,
the negation of the current expected bit (an always-mismatching input),
starting from the power-on register. -/
def mismatchSt : ℕ → SyncSt
  | 0 => ⟨tapInit, 0⟩
  | n + 1 => syncStep (!((mismatchSt n).tap 15)) (mismatchSt n)

/-- The always-mismatching input stream for the power-on start state. -/
def mismatchStream (n : ℕ) : Bool := !((mismatchSt n).tap 15)

/-- The generator's own output from the power-on register: feeding this
stream back matches the expected bit at every pass. -/
def selfStream (n : ℕ) : Bool := expectedBit (advance^[n] tapInit)

/-!
Helper lemmas about the sync trace and the lock search.
-/

lemma syncRun_shift (stream : ℕ → Bool) (s0 : SyncSt) :
    ∀ n, syncRun (fun i => stream (i + 1)) (syncStep (stream 0) s0) n =
      syncRun stream s0 (n + 1) := by
  intro n
  induction n with
  | zero => rfl
  | succ n ih =>
    show syncStep (stream (n + 1)) _ = _
    rw [ih]
    rfl

lemma syncRun_match_add (stream : ℕ → Bool) (s0 : SyncSt) (m : ℕ) :
    ∀ j, (∀ k, k < j → stream (m + k) = (syncRun stream s0 (m + k)).tap 15) →
      syncRun stream s0 (m + j) =
        ⟨advance^[j] (syncRun stream s0 m).tap, (syncRun stream s0 m).r + j⟩ := by
  intro j
  induction j with
  | zero => intro _; rfl
  | succ j ih =>
    intro h
    have hj := ih (fun k hk => h k (by omega))
    have hm : stream (m + j) = (syncRun stream s0 (m + j)).tap 15 :=
      h j (by omega)
    show syncStep (stream (m + j)) (syncRun stream s0 (m + j)) = _
    rw [hj] at hm
    rw [hj]
    have hc : advance^[j] (syncRun stream s0 m).tap 15 = stream (m + j) := hm.symm
    simp only [syncStep, hc, eq_self_iff_true, if_true]
    rw [← Function.iterate_succ_apply' advance]
    rfl

lemma lockSearch_first_hit (thres : ℕ) :
    ∀ (t fuel : ℕ) (stream : ℕ → Bool) (s0 : SyncSt),
      (∀ m, m < t → (syncRun stream s0 m).r < thres) →
      thres ≤ (syncRun stream s0 t).r → t < fuel →
      lockSearch thres stream s0 fuel = some t := by
  intro t
  induction t with
  | zero =>
    intro fuel stream s0 _ hr hf
    match fuel, hf with
    | fuel + 1, _ =>
      have hr0 : thres ≤ s0.r := hr
      simp [lockSearch, hr0]
  | succ t ih =>
    intro fuel stream s0 hlt hr hf
    match fuel, hf with
    | fuel + 1, hf =>
      have h00 : s0.r < thres := hlt 0 (by omega)
      have h0 : ¬ thres ≤ s0.r := not_le.mpr h00
      simp only [lockSearch, h0, if_false]
      have := ih fuel (fun i => stream (i + 1)) (syncStep (stream 0) s0)
        (fun m hm => by rw [syncRun_shift]; exact hlt (m + 1) (by omega))
        (by rw [syncRun_shift]; exact hr) (by omega)
      rw [this]
      rfl

lemma lockSearch_never (thres : ℕ) :
    ∀ (fuel : ℕ) (stream : ℕ → Bool) (s0 : SyncSt),
      (∀ n, (syncRun stream s0 n).r < thres) →
      lockSearch thres stream s0 fuel = none := by
  intro fuel
  induction fuel with
  | zero => intro stream s0 _; rfl
  | succ fuel ih =>
    intro stream s0 h
    have h0 : ¬ thres ≤ s0.r := not_le.mpr (h 0)
    simp only [lockSearch, h0, if_false]
    rw [ih (fun i => stream (i + 1)) (syncStep (stream 0) s0)
      (fun n => by rw [syncRun_shift]; exact h (n + 1))]
    rfl

lemma syncRun_mismatchStream :
    ∀ n, syncRun mismatchStream ⟨tapInit, 0⟩ n = mismatchSt n := by
  intro n
  induction n with
  | zero => rfl
  | succ n ih =>
    show syncStep (mismatchStream n) (syncRun mismatchStream ⟨tapInit, 0⟩ n) = _
    rw [ih]
    rfl

lemma mismatchStream_mismatch :
    ∀ i, mismatchStream i ≠ (syncRun mismatchStream ⟨tapInit, 0⟩ i).tap 15 := by
  intro i
  rw [syncRun_mismatchStream]
  simp [mismatchStream]

lemma syncRun_selfStream :
    ∀ n, syncRun selfStream ⟨tapInit, 0⟩ n = ⟨advance^[n] tapInit, n⟩ := by
  intro n
  induction n with
  | zero => rfl
  | succ n ih =>
    show syncStep (selfStream n) (syncRun selfStream ⟨tapInit, 0⟩ n) = _
    rw [ih]
    have hc : advance^[n] tapInit 15 = selfStream n := rfl
    simp only [syncStep, hc, eq_self_iff_true, if_true]
    rw [← Function.iterate_succ_apply' advance]

lemma selfStream_matches :
    ∀ i, selfStream i = (syncRun selfStream ⟨tapInit, 0⟩ i).tap 15 := by
  intro i
  rw [syncRun_selfStream]
  rfl

/-!
Helper lemma about the count trace.
-/

lemma countRun_zero_start (stream : ℕ → Bool) (tap0 : Reg) :
    ∀ n, countRun stream ⟨tap0, 0, 0⟩ n =
      ⟨advance^[n] tap0,
       ∑ i ∈ Finset.range n,
         if stream i = expectedBit (advance^[i] tap0) then 0 else 1,
       n⟩ := by
  intro n
  induction n with
  | zero => rfl
  | succ n ih =>
    show countStep (stream n) (countRun stream ⟨tap0, 0, 0⟩ n) = _
    rw [ih]
    simp only [countStep, Finset.sum_range_succ]
    rw [← Function.iterate_succ_apply' advance]
    by_cases h : stream n = expectedBit (advance^[n] tap0)
    · simp [expectedBit] at h
      simp [h, expectedBit]
    · have h2 : ¬ advance^[n] tap0 15 = stream n := fun he => h he.symm
      simp [h, h2]


/-!
Claim theorems.
-/

/-- C1: the claim states the spec's shift step (shift toward higher
index, discard cell 15, insert the feedback at cell 0).  The code's
`advance` and that step disagree already on the register holding a
single 1 in cell 0. -/
theorem advance_ne_advanceSpecDir : advance regE0 ≠ advanceSpecDir regE0 := by
  decide

/-- C1 (amended): advancing the LFSR computes the feedback bit as
cell 7 XOR cell 11 from the current cells, shifts every cell one
position toward the LOWER index so that cell 0 is discarded, and
inserts the feedback bit at cell 15; every sync-phase and count-phase
pass performs exactly one such advance (the sync pass on the register
left by the mismatch handling). -/
theorem advance_step_characterization (s : Reg) :
    advance s 15 = xor (s 7) (s 11)
    ∧ (∀ i : Fin 15, advance s i.castSucc = s i.succ)
    ∧ (∀ (b : Bool) (st : SyncSt),
        (syncStep b st).tap =
          if st.tap 15 = b then advance st.tap else advance (overrideFlip st.tap))
    ∧ (∀ (b : Bool) (cs : CountSt), (countStep b cs).tap = advance cs.tap) := by
  refine ⟨rfl, ?_, ?_, fun b cs => rfl⟩
  · intro i
    have hne : ((i.castSucc : Fin 16) : ℕ) ≠ 15 := by
      have := i.isLt
      simp only [Fin.coe_castSucc]
      omega
    show shiftRight s (feedback s) i.castSucc = s i.succ
    simp only [shiftRight, dif_neg hne]
    congr 1
  · intro b st
    by_cases h : st.tap 15 = b <;> simp [syncStep, h]

/-- C2: the claim says the override is discarded by the next advance.
In the code the overridden cell 15 is shifted into cell 14, so the
states differ, and five advances later (when the overridden bit has
reached tap 11 and fed the feedback) the expected bit itself differs:
shown here from the all-ones register. -/
theorem overrideFlip_not_discarded :
    advance (overrideFlip tapInit) ≠ advance tapInit
    ∧ expectedBit (advance^[5] (overrideFlip tapInit))
      ≠ expectedBit (advance^[5] tapInit) := by
  constructor
  · decide
  · decide

/-- C2 (amended): overriding cell 15 and then advancing leaves the
feedback bit of that advance unchanged (the taps 7 and 11 are not
touched) and leaves every cell except cell 14 as in the un-overridden
advance, but cell 14 receives the flipped bit, so the two states always
differ and the override can affect future expected bits once the bit
reaches the feedback taps. -/
theorem overrideFlip_advance_effect (s : Reg) :
    feedback (overrideFlip s) = feedback s
    ∧ advance (overrideFlip s) 14 = !(advance s 14)
    ∧ ∀ i : Fin 16, i ≠ 14 → advance (overrideFlip s) i = advance s i := by
  have hfb : feedback (overrideFlip s) = feedback s := rfl
  refine ⟨hfb, rfl, ?_⟩
  intro i hi
  have hval : (i : ℕ) ≠ 14 := fun h => hi (Fin.ext (by rw [h]; rfl))
  by_cases h15 : (i : ℕ) = 15
  · show shiftRight (overrideFlip s) (feedback (overrideFlip s)) i
      = shiftRight s (feedback s) i
    simp only [shiftRight, dif_pos h15, hfb]
  · show shiftRight (overrideFlip s) (feedback (overrideFlip s)) i
      = shiftRight s (feedback s) i
    simp only [shiftRight, dif_neg h15]
    have hne : (i : ℕ) + 1 ≠ 15 := by omega
    simp [overrideFlip, hne]

/-- C2 witness: the amended override theorem evaluated at the all-ones
register and cell 0. -/
theorem overrideFlip_advance_effect_witness :
    feedback (overrideFlip tapInit) = feedback tapInit
    ∧ advance (overrideFlip tapInit) 0 = advance tapInit 0 :=
  ⟨(overrideFlip_advance_effect tapInit).1,
   (overrideFlip_advance_effect tapInit).2.2 0 (by decide)⟩

/-- C3: the claim says every `countber` invocation re-seeds all cells
to 1 before the first sync comparison, regardless of the entry state.
In the code the register is never written before the sync loop: with
the all-zero entry register the first compared expected bit is 0, and
the measured error count of a whole run differs between the all-zero
and the all-ones entry states on the same input. -/
theorem countber_entry_state_matters :
    (syncRun (correctedStream false streamZero) ⟨regZero, 0⟩ 0).tap 15 = false
    ∧ (countber 5 2 4 false streamZero regZero).map (fun p => p.1) = some 0
    ∧ (countber 5 2 4 false streamZero tapInit).map (fun p => p.1) = some 1 := by
  refine ⟨rfl, ?_, ?_⟩
  · decide
  · decide

/-- C3 (amended): `countber` resets the counters (`RenzokuError`,
`ErrorBits`, `CountBits`) to 0 at every invocation but leaves the 16
register cells at their entry values; the sync phase starts from the
entry register unchanged, and only an all-ones entry state (the
power-on initial value) behaves like the re-seeded measurement the
spec describes. -/
theorem countber_no_reseed (fuel thres totalBits : ℕ) (dataNeg : Bool)
    (raw : ℕ → Bool) (tap0 : Reg) :
    syncRun (correctedStream dataNeg raw) ⟨tap0, 0⟩ 0 = ⟨tap0, 0⟩
    ∧ (tap0 = tapInit →
        countber fuel thres totalBits dataNeg raw tap0
          = countberReseed fuel thres totalBits dataNeg raw tap0) := by
  refine ⟨rfl, ?_⟩
  intro h
  rw [h]
  rfl

/-- C3 witness: the amended theorem evaluated at the power-on register
with a concrete configuration and stream. -/
theorem countber_no_reseed_witness :
    countber 3 1 2 false streamZero tapInit
      = countberReseed 3 1 2 false streamZero tapInit :=
  (countber_no_reseed 3 1 2 false streamZero tapInit).2 rfl

/-- C4: the claim says the counter is 0 at the end of a mismatched
pass and that ThresError further consecutive matches are then needed.
In the code the `for` increment runs after the mismatch body, so the
counter ends the pass at 1, and with ThresError = 2 a single further
matching bit already locks: starting all-ones against the all-low
stream, pass 0 mismatches, pass 1 matches, and the loop exits after
2 bits. -/
theorem sync_mismatch_counter_not_zero :
    streamZero 0 ≠ (syncRun streamZero ⟨tapInit, 0⟩ 0).tap 15
    ∧ (syncRun streamZero ⟨tapInit, 0⟩ 1).r = 1
    ∧ streamZero 1 = (syncRun streamZero ⟨tapInit, 0⟩ 1).tap 15
    ∧ lockSearch 2 streamZero ⟨tapInit, 0⟩ 9 = some 2 := by
  refine ⟨?_, ?_, ?_, ?_⟩ <;> decide

/-- C4 (amended): after a mismatched pass the consecutive-match counter
equals 1 at the end of that pass (the body resets it to 0 and the loop
increment then adds one), so only ThresError minus 1 further
consecutive matching bits are needed for the counter to reach
ThresError and declare lock. -/
theorem sync_mismatch_counter (stream : ℕ → Bool) (s0 : SyncSt)
    (n thres : ℕ)
    (hmis : stream n ≠ (syncRun stream s0 n).tap 15)
    (hth : 1 ≤ thres)
    (hmatch : ∀ k, k < thres - 1 →
      stream (n + 1 + k) = (syncRun stream s0 (n + 1 + k)).tap 15) :
    (syncRun stream s0 (n + 1)).r = 1
    ∧ (syncRun stream s0 (n + thres)).r = thres := by
  have h1 : (syncRun stream s0 (n + 1)).r = 1 := by
    show (syncStep (stream n) (syncRun stream s0 n)).r = 1
    have hne : ¬ (syncRun stream s0 n).tap 15 = stream n := fun h => hmis h.symm
    simp [syncStep, hne]
  refine ⟨h1, ?_⟩
  have hadd := syncRun_match_add stream s0 (n + 1) (thres - 1) hmatch
  have hidx : n + 1 + (thres - 1) = n + thres := by omega
  rw [hidx] at hadd
  rw [hadd]
  simp [h1]
  omega

/-- C4 witness: the amended theorem on the all-low stream from the
all-ones register, with ThresError = 2 and the mismatch at pass 0. -/
theorem sync_mismatch_counter_witness :
    (syncRun streamZero ⟨tapInit, 0⟩ 1).r = 1
    ∧ (syncRun streamZero ⟨tapInit, 0⟩ 2).r = 2 :=
  sync_mismatch_counter streamZero ⟨tapInit, 0⟩ 0 2 (by decide) (by decide)
    (by decide)

/-- C5: the count phase runs exactly `totalBits` passes with no early
exit, so the final `CountBits` equals `totalBits` (also in the pair
returned by `countber`), `ErrorBits` counts exactly the passes whose
polarity-corrected sampled bit differed from the expected bit, the
register is advanced once per pass with no override, and a perfectly
matching stream yields zero errors. -/
theorem countPhase_exact (stream : ℕ → Bool) (tap0 : Reg) (total : ℕ) :
    (countRun stream ⟨tap0, 0, 0⟩ total).countBits = total
    ∧ (countRun stream ⟨tap0, 0, 0⟩ total).errorBits
        = ((Finset.range total).filter
            (fun i => stream i ≠ expectedBit (advance^[i] tap0))).card
    ∧ (countRun stream ⟨tap0, 0, 0⟩ total).tap = advance^[total] tap0
    ∧ ((∀ i, i < total → stream i = expectedBit (advance^[i] tap0)) →
        (countRun stream ⟨tap0, 0, 0⟩ total).errorBits = 0)
    ∧ (∀ (fuel thres : ℕ) (dn : Bool) (raw : ℕ → Bool) (tap1 : Reg)
        (e c : ℕ) (t : Reg),
        countber fuel thres total dn raw tap1 = some (e, c, t) → c = total) := by
  have hrun := countRun_zero_start stream tap0 total
  refine ⟨?_, ?_, ?_, ?_, ?_⟩
  · rw [hrun]
  · rw [hrun]
    show (∑ i ∈ Finset.range total,
        if stream i = expectedBit (advance^[i] tap0) then 0 else 1) = _
    rw [Finset.card_filter]
    refine Finset.sum_congr rfl ?_
    intro i _
    by_cases h : stream i = expectedBit (advance^[i] tap0) <;> simp [h]
  · rw [hrun]
  · intro hall
    rw [hrun]
    show (∑ i ∈ Finset.range total,
        if stream i = expectedBit (advance^[i] tap0) then 0 else 1) = 0
    refine Finset.sum_eq_zero ?_
    intro i hi
    rw [if_pos (hall i (Finset.mem_range.mp hi))]
  · intro fuel thres dn raw tap1 e c t h
    have hshape : countber fuel thres total dn raw tap1 =
        match lockSearch thres (correctedStream dn raw) ⟨tap1, 0⟩ fuel with
        | none => none
        | some n =>
          some ((countRun (fun i => correctedStream dn raw (n + i))
              ⟨(syncRun (correctedStream dn raw) ⟨tap1, 0⟩ n).tap, 0, 0⟩
              total).errorBits,
            (countRun (fun i => correctedStream dn raw (n + i))
              ⟨(syncRun (correctedStream dn raw) ⟨tap1, 0⟩ n).tap, 0, 0⟩
              total).countBits,
            (countRun (fun i => correctedStream dn raw (n + i))
              ⟨(syncRun (correctedStream dn raw) ⟨tap1, 0⟩ n).tap, 0, 0⟩
              total).tap) := rfl
    rw [hshape] at h
    cases hl : lockSearch thres (correctedStream dn raw) ⟨tap1, 0⟩ fuel with
    | none => rw [hl] at h; simp at h
    | some n =>
      rw [hl] at h
      simp only [Option.some.injEq, Prod.mk.injEq] at h
      have hc := h.2.1
      rw [countRun_zero_start] at hc
      exact hc.symm

/-- C5 witness: the count phase on the all-low stream from the all-zero
register counts 3 bits and no errors. -/
theorem countPhase_exact_witness :
    (countRun streamZero ⟨regZero, 0, 0⟩ 3).countBits = 3
    ∧ (countRun streamZero ⟨regZero, 0, 0⟩ 3).errorBits = 0 :=
  ⟨(countPhase_exact streamZero regZero 3).1,
   (countPhase_exact streamZero regZero 3).2.2.2.1 (by decide)⟩

/-- C6: the claim is stated for every positive ThresError, but with
ThresError = 1 a stream that mismatches at every pass still locks after
one bit: the mismatch body resets the counter to 0, the loop increment
raises it to 1, and the guard fails.  `mismatchStream` disagrees with
the current expected bit at every pass, yet the sync loop exits. -/
theorem sync_thres_one_locks :
    (∀ i, mismatchStream i ≠ (syncRun mismatchStream ⟨tapInit, 0⟩ i).tap 15)
    ∧ 0 < 1
    ∧ lockSearch 1 mismatchStream ⟨tapInit, 0⟩ 5 = some 1 := by
  refine ⟨mismatchStream_mismatch, Nat.zero_lt_one, ?_⟩
  decide

/-- C6 (amended): for every threshold of at least 2, if every sampled
polarity-corrected bit differs from the current expected bit then the
consecutive-match counter never reaches the threshold, so the sync loop
never exits (the lock search fails for every fuel bound) and the count
phase is never entered. -/
theorem sync_never_match_no_lock (thres fuel : ℕ) (stream : ℕ → Bool)
    (s0 : SyncSt) (h2 : 2 ≤ thres) (h0 : s0.r = 0)
    (hmis : ∀ i, stream i ≠ (syncRun stream s0 i).tap 15) :
    (∀ n, (syncRun stream s0 n).r < thres)
    ∧ lockSearch thres stream s0 fuel = none := by
  have hr : ∀ n, (syncRun stream s0 n).r < thres := by
    intro n
    cases n with
    | zero => show s0.r < thres; omega
    | succ n =>
      show (syncStep (stream n) (syncRun stream s0 n)).r < thres
      have hne : ¬ (syncRun stream s0 n).tap 15 = stream n :=
        fun h => hmis n h.symm
      simp [syncStep, hne]
      omega
  exact ⟨hr, lockSearch_never thres fuel stream s0 hr⟩

/-- C6 witness: the amended theorem on the concrete always-mismatching
stream with threshold 2 and fuel 7. -/
theorem sync_never_match_no_lock_witness :
    (∀ n, (syncRun mismatchStream ⟨tapInit, 0⟩ n).r < 2)
    ∧ lockSearch 2 mismatchStream ⟨tapInit, 0⟩ 7 = none :=
  sync_never_match_no_lock 2 7 mismatchStream ⟨tapInit, 0⟩ (by omega) rfl
    mismatchStream_mismatch

/-- C7: from the freshly reset all-ones register, a stream equal to the
generator's own expected output at every pass locks after exactly
ThresError sampled bits, and the register at lock has been advanced
exactly once per sampled bit. -/
theorem sync_selfmatch_locks (thres fuel : ℕ) (stream : ℕ → Bool)
    (hm : ∀ i, stream i = (syncRun stream ⟨tapInit, 0⟩ i).tap 15)
    (hf : thres < fuel) :
    lockSearch thres stream ⟨tapInit, 0⟩ fuel = some thres
    ∧ (syncRun stream ⟨tapInit, 0⟩ thres).tap = advance^[thres] tapInit := by
  have htrace : ∀ n, syncRun stream ⟨tapInit, 0⟩ n =
      ⟨advance^[n] tapInit, n⟩ := by
    intro n
    have h := syncRun_match_add stream ⟨tapInit, 0⟩ 0 n
      (fun k hk => by simpa using hm k)
    rw [Nat.zero_add] at h
    have e0 : syncRun stream ⟨tapInit, 0⟩ 0 = ⟨tapInit, 0⟩ := rfl
    rw [e0] at h
    simpa using h
  constructor
  · refine lockSearch_first_hit thres thres fuel stream ⟨tapInit, 0⟩ ?_ ?_ hf
    · intro m hm2
      rw [htrace m]
      exact hm2
    · rw [htrace thres]
  · rw [htrace thres]

/-- C7 witness: the generator's own output stream locks in exactly two
bits when the threshold is 2. -/
theorem sync_selfmatch_locks_witness :
    lockSearch 2 selfStream ⟨tapInit, 0⟩ 4 = some 2
    ∧ (syncRun selfStream ⟨tapInit, 0⟩ 2).tap = advance^[2] tapInit :=
  sync_selfmatch_locks 2 4 selfStream selfStream_matches (by omega)

/-- C8: toggling the data-polarity flag and inverting every raw data
bit leaves the whole measurement unchanged — the sync phase, the error
count, the counted bits and the final register are all identical,
because the polarity-corrected stream `raw XOR DataNeg` is the same in
both runs. -/
theorem countber_polarity_relabel (fuel thres totalBits : ℕ)
    (dataNeg : Bool) (raw : ℕ → Bool) (tap0 : Reg) :
    countber fuel thres totalBits dataNeg raw tap0
      = countber fuel thres totalBits (!dataNeg) (fun i => !(raw i)) tap0 := by
  have h : correctedStream dataNeg raw
      = correctedStream (!dataNeg) (fun i => !(raw i)) := by
    funext i
    simp only [correctedStream]
    cases raw i <;> cases dataNeg <;> rfl
  unfold countber
  rw [h]

/-- C9: the claim says the BER computation fails with a division-by-
zero condition when `CountBits` is 0.  `show_ber` performs the division
unconditionally and returns an ordinary value there. -/
theorem show_ber_zero_counted_no_failure :
    show_ber 5 0 = Except.ok 0
    ∧ show_ber 5 0 ≠ Except.error BerError.divisionByZero := by
  constructor
  · show Except.ok ((5 : ℚ) / (0 : ℚ) * 100) = Except.ok 0
    norm_num
  · intro h
    exact Except.noConfusion h

/-- C9 (amended): `show_ber` computes the ratio with no guard on
`CountBits` and never signals a failure condition; the zero case is
not reachable from a completed measurement, since the count phase
leaves `CountBits` positive whenever `TotalBits` is positive. -/
theorem show_ber_unguarded :
    (∀ e c : ℕ, ∃ q : ℚ, show_ber e c = Except.ok q)
    ∧ (∀ (stream : ℕ → Bool) (tap0 : Reg) (total : ℕ), 0 < total →
        0 < (countRun stream ⟨tap0, 0, 0⟩ total).countBits) := by
  constructor
  · intro e c
    exact ⟨(e : ℚ) / (c : ℚ) * 100, rfl⟩
  · intro stream tap0 total htotal
    rw [countRun_zero_start]
    exact htotal

/-- C9 witness: the unguarded division at `CountBits = 0`, and a
positive counted total after a one-bit count phase. -/
theorem show_ber_unguarded_witness :
    (∃ q : ℚ, show_ber 5 0 = Except.ok q)
    ∧ 0 < (countRun streamZero ⟨regZero, 0, 0⟩ 1).countBits :=
  ⟨show_ber_unguarded.1 5 0,
   show_ber_unguarded.2 streamZero regZero 1 (by omega)⟩

/-- C10: the claim says a length index above 5 fails at load time with
an invalid-configuration condition before the table is consulted.  In
`main` the index read from EEPROM is used immediately to index the
table, with no bounds check and no failure path: at index 6 the load
returns an out-of-bounds read, not an error. -/
theorem loadConfig_out_of_range_no_failure :
    loadConfig 6 = Except.ok none
    ∧ loadConfig 6 ≠ Except.error ConfigError.invalidConfiguration := by
  constructor
  · rfl
  · intro h
    exact Except.noConfusion h

/-- C10 (amended): configuration load never fails: it immediately
indexes the six-entry table with the raw EEPROM byte, an index above 5
producing an out-of-bounds table read instead of an invalid-
configuration condition; indices stay in bounds in normal operation
only because `setsetting` wraps 6 back to 0, and the shipped default
index 2 selects 10000 bits. -/
theorem loadConfig_no_bounds_check :
    (∀ tbi : ℕ, loadConfig tbi = Except.ok (loadTotalBits tbi))
    ∧ (∀ tbi : ℕ, 5 < tbi → loadTotalBits tbi = none)
    ∧ (∀ tbi : ℕ, tbi < 6 → setsettingTBI tbi < 6)
    ∧ loadTotalBits 2 = some 10000 := by
  refine ⟨fun tbi => rfl, ?_, ?_, rfl⟩
  · intro tbi h
    show tbit.get? tbi = none
    rw [List.get?_eq_none]
    show tbit.length ≤ tbi
    simp [tbit]
    omega
  · intro tbi h
    unfold setsettingTBI
    split <;> omega

/-- C10 witness: index 6 reads past the table, and the setting cycle
keeps the index in bounds at the wrap point. -/
theorem loadConfig_no_bounds_check_witness :
    loadTotalBits 6 = none ∧ setsettingTBI 5 < 6 :=
  ⟨loadConfig_no_bounds_check.2.1 6 (by omega),
   loadConfig_no_bounds_check.2.2.1 5 (by omega)⟩
